import Mathlib

/-!
Shallow embedding of `csv_processor.py` (module `csv_processor`), a small CSV
filter/aggregate command-line utility, together with formal statements of the
specification's claims about it.

Modelling conventions:
* Python strings are embedded as `Str := List Char` (Unicode code points).
  `str` converts a Lean string literal to `Str`.
* Python's `str.strip()` and the whitespace skipped by `float()` are modelled
  over the six ASCII whitespace characters; normalisation of non-ASCII
  whitespace and of non-ASCII decimal digits performed by CPython is outside
  the modelled fragment (every concrete input appearing in a theorem below is
  ASCII, where the model agrees with CPython exactly).
* Python `float` values are embedded as `PyFloat`: an exact (unnormalised)
  rational `PyRat`, or `inf`, `-inf`, `nan`.  The binary64 rounding of a
  parsed literal, and overflow of huge literals to `inf`, are abstracted to
  the exact rational value of the literal; the orderings `<`, `>` (including
  their behaviour on `inf`/`nan`) follow Python's float comparisons.
* Python `dict[str, str]` rows are embedded as association lists `Row` with
  first-match lookup (`assocFind`), matching `dict` lookup for the unique-key
  dictionaries the program builds.
* A Python function that can raise becomes `Except PyErr _`; the `PyErr`
  constructor names follow the specification's error taxonomy.  An uncaught
  `KeyError` (possible in `aggregate_data`, whose `except ValueError` does not
  catch it) is modelled by the separate constructor `PyErr.keyError`.
-/

/-- Python strings, embedded as lists of Unicode code points. -/
abbrev Str := List Char

/-- Coercion from a Lean string literal to the embedding type. -/
def str (s : String) : Str := s.data

/-- Whitespace stripped by Python's `str.strip()` (ASCII fragment). -/
def isPySpace (c : Char) : Bool :=
  c == ' ' || c == '\t' || c == '\n' || c == '\r' || c == '\x0b' || c == '\x0c'

/-- Python `s.strip()`: drop leading and trailing whitespace. -/
def pyStrip (s : Str) : Str :=
  ((s.dropWhile isPySpace).reverse.dropWhile isPySpace).reverse

/-- Exact list-prefix test (by `==` on characters). -/
def listPrefixOf : Str → Str → Bool
  | [], _ => true
  | _ :: _, [] => false
  | a :: as, b :: bs => a == b && listPrefixOf as bs

/-- Python's substring containment `needle in s` (for nonempty `needle`). -/
def isSubstr (needle : Str) : Str → Bool
  | [] => listPrefixOf needle []
  | c :: rest => listPrefixOf needle (c :: rest) || isSubstr needle rest

/-- Python's `s.split(needle, 1)` restricted to the case where it produces two
parts: `some (before, after)` splitting at the first occurrence of `needle`,
`none` when `needle` does not occur. -/
def splitOnce (needle : Str) : Str → Option (Str × Str)
  | [] => if listPrefixOf needle [] then some ([], ([] : Str).drop needle.length) else none
  | c :: rest =>
    if listPrefixOf needle (c :: rest) then some ([], (c :: rest).drop needle.length)
    else
      match splitOnce needle rest with
      | some (l, r) => some (c :: l, r)
      | none => none

/-- Python's lexicographic `a < b` on strings: code-point comparison,
a proper prefix is smaller. -/
def strLt : Str → Str → Bool
  | [], [] => false
  | [], _ :: _ => true
  | _ :: _, [] => false
  | a :: as, b :: bs => if a < b then true else if b < a then false else strLt as bs

/-- Python's lexicographic `a > b` on strings. -/
def strGt : Str → Str → Bool
  | [], _ => false
  | _ :: _, [] => true
  | a :: as, b :: bs => if b < a then true else if a < b then false else strGt as bs

/-- Exact rational value, kept unnormalised (`num / den`, `den` positive in
every value the program constructs). -/
structure PyRat where
  num : Int
  den : Nat
deriving DecidableEq, Repr

/-- Value comparison `a < b` by cross-multiplication. -/
def PyRat.blt (a b : PyRat) : Bool := a.num * (b.den : Int) < b.num * (a.den : Int)

/-- Value comparison `a > b` by cross-multiplication. -/
def PyRat.bgt (a b : PyRat) : Bool := b.num * (a.den : Int) < a.num * (b.den : Int)

/-- Embedding of Python `float` values: exact finite rational, infinities, NaN. -/
inductive PyFloat where
  | finite (q : PyRat)
  | inf
  | neginf
  | nan
deriving DecidableEq, Repr

/-- Python float `<` (false on any NaN operand). -/
def PyFloat.lt : PyFloat → PyFloat → Bool
  | .finite a, .finite b => a.blt b
  | .finite _, .inf => true
  | .neginf, .finite _ => true
  | .neginf, .inf => true
  | _, _ => false

/-- Python float `>` (false on any NaN operand). -/
def PyFloat.gt : PyFloat → PyFloat → Bool
  | .finite a, .finite b => a.bgt b
  | .inf, .finite _ => true
  | .finite _, .neginf => true
  | .inf, .neginf => true
  | _, _ => false

/-- Python float addition (for `sum`); NaN propagates, `inf + -inf = nan`. -/
def PyFloat.add : PyFloat → PyFloat → PyFloat
  | .nan, _ => .nan
  | _, .nan => .nan
  | .inf, .neginf => .nan
  | .neginf, .inf => .nan
  | .inf, _ => .inf
  | _, .inf => .inf
  | .neginf, _ => .neginf
  | _, .neginf => .neginf
  | .finite a, .finite b => .finite ⟨a.num * b.den + b.num * a.den, a.den * b.den⟩

/-- Division by a positive machine integer (for the average's `/ len(values)`). -/
def PyFloat.divByNat (x : PyFloat) (n : Nat) : PyFloat :=
  match x with
  | .finite a => .finite ⟨a.num, a.den * n⟩
  | y => y

/-- Validity of PEP-515 underscores in a numeric literal: each `_` must sit
between two ASCII digits.  `prev` is the character preceding the current
position. -/
def underscoresOkAux : Option Char → Str → Bool
  | _, [] => true
  | prev, c :: rest =>
    if c == '_' then
      (match prev with | some p => p.isDigit | none => false)
        && (match rest with | d :: _ => d.isDigit | [] => false)
        && underscoresOkAux (some c) rest
    else underscoresOkAux (some c) rest

/-- Underscore validity over a whole (already stripped) literal. -/
def underscoresOk (s : Str) : Bool := underscoresOkAux none s

/-- Value of a run of ASCII digits. -/
def digitsToNat (ds : Str) : Nat :=
  ds.foldl (fun n c => 10 * n + (c.toNat - '0'.toNat)) 0

/-- Exact value of a decimal literal with integer digits `ip`, fractional
digits `fp`, decimal exponent `e` and sign `neg`. -/
def mkPyRat (neg : Bool) (ip fp : Str) (e : Int) : PyRat :=
  let m := fp.length
  let mant : Int := (digitsToNat ip * 10 ^ m + digitsToNat fp : Nat)
  let mant := if neg then -mant else mant
  if 0 ≤ e then ⟨mant * 10 ^ e.toNat, 10 ^ m⟩
  else ⟨mant, 10 ^ (m + e.natAbs)⟩

/-- Exponent part of a float literal: optional sign then a nonempty digit run. -/
def parseExp : Str → Option Int
  | '+' :: rest => if rest ≠ [] && rest.all Char.isDigit then some (digitsToNat rest) else none
  | '-' :: rest => if rest ≠ [] && rest.all Char.isDigit then some (-(digitsToNat rest : Int)) else none
  | s => if s ≠ [] && s.all Char.isDigit then some (digitsToNat s) else none

/-- Body of a float literal after the optional sign: case-insensitive
`inf`/`infinity`/`nan`, or `digits [. digits] [(e|E) exp]` with at least one
mantissa digit. -/
def parseUnsigned (neg : Bool) (s : Str) : Option PyFloat :=
  let low := s.map Char.toLower
  if low == str "inf" || low == str "infinity" then
    some (if neg then .neginf else .inf)
  else if low == str "nan" then some .nan
  else
    let (ip, rest1) := s.span Char.isDigit
    let (fp, rest2) :=
      match rest1 with
      | '.' :: r => r.span Char.isDigit
      | _ => (([] : Str), rest1)
    if ip = [] ∧ fp = [] then none
    else
      match rest2 with
      | [] => some (.finite (mkPyRat neg ip fp 0))
      | c :: r3 =>
        if c == 'e' || c == 'E' then
          match parseExp r3 with
          | some e => some (.finite (mkPyRat neg ip fp e))
          | none => none
        else none

/-- Optional leading sign of a float literal. -/
def parseSigned : Str → Option PyFloat
  | '+' :: rest => parseUnsigned false rest
  | '-' :: rest => parseUnsigned true rest
  | s => parseUnsigned false s

/-- Python's `float(s)` on a string: `some` of the parsed value, `none` when
`float` raises `ValueError`.  Strips surrounding whitespace, validates and
removes PEP-515 underscores, then parses sign and body. -/
def pyFloat (s : Str) : Option PyFloat :=
  let t := pyStrip s
  if underscoresOk t then parseSigned (t.filter (· != '_')) else none

/-- Source: `EqualsOperator.apply` — `str(value).strip() == str(target).strip()`. -/
def EqualsOperator.apply (value target : Str) : Bool :=
  pyStrip value == pyStrip target

/-- Source: `GreaterThanOperator.apply` — `float(value) > float(target)`,
falling back to `str(value) > str(target)` when either coercion raises. -/
def GreaterThanOperator.apply (value target : Str) : Bool :=
  match pyFloat value, pyFloat target with
  | some a, some b => PyFloat.gt a b
  | _, _ => strGt value target

/-- Source: `LessThanOperator.apply` — `float(value) < float(target)`,
falling back to `str(value) < str(target)` when either coercion raises. -/
def LessThanOperator.apply (value target : Str) : Bool :=
  match pyFloat value, pyFloat target with
  | some a, some b => PyFloat.lt a b
  | _, _ => strLt value target

/-- Errors surfaced by the program (the specification's error taxonomy), plus
`keyError` for the uncaught `KeyError` a raw `row[column]` lookup can raise. -/
inductive PyErr where
  | invalidFilterFormat (condition : Str)
  | invalidAggFormat (condition : Str)
  | unsupportedOperator (op : Str)
  | unsupportedFunction (fn : Str)
  | columnNotFound (column : Str)
  | nonNumericValue (column : Str) (text : Str)
  | keyError (key : Str)
deriving DecidableEq, Repr

/-- First-match association-list lookup, modelling `dict` lookup/membership. -/
def assocFind {α : Type} (k : Str) : List (Str × α) → Option α
  | [] => none
  | (k', v) :: rest => if k == k' then some v else assocFind k rest

/-- One CSV row as `aggregate_data`/`filter_data` receive it per the source's
type annotations: a `dict` from header name to cell text. -/
abbrev Row := List (Str × Str)

/-- Source: `CSVProcessor.__init__` — the `filter_operators` dispatch table. -/
def filter_operators : List (Str × (Str → Str → Bool)) :=
  [(str "eq", EqualsOperator.apply),
   (str "gt", GreaterThanOperator.apply),
   (str "lt", LessThanOperator.apply)]

/-- Loop body of `filter_data`: check each row for the column, keep rows on
which the operator's predicate holds, preserving order; a row without the
column aborts with `ColumnNotFound`. -/
def filterLoop (fn : Str → Str → Bool) (column value : Str) :
    List Row → Except PyErr (List Row)
  | [] => .ok []
  | row :: rest =>
    match assocFind column row with
    | none => .error (.columnNotFound column)
    | some cell =>
      match filterLoop fn column value rest with
      | .error e => .error e
      | .ok kept => .ok (if fn cell value then row :: kept else kept)

/-- Source: `CSVProcessor.filter_data`. -/
def filter_data (data : List Row) (column operator value : Str) :
    Except PyErr (List Row) :=
  match assocFind operator filter_operators with
  | none => .error (.unsupportedOperator operator)
  | some fn => filterLoop fn column value data

/-- Source: `AverageAggregation.calculate` — `sum(values) / len(values)`,
`0.0` on an empty list. -/
def AverageAggregation.calculate (values : List PyFloat) : PyFloat :=
  if values = [] then .finite ⟨0, 1⟩
  else (values.foldl PyFloat.add (.finite ⟨0, 1⟩)).divByNat values.length

/-- Source: `MinAggregation.calculate` — `min(values)`, `0` on an empty list. -/
def MinAggregation.calculate : List PyFloat → PyFloat
  | [] => .finite ⟨0, 1⟩
  | v :: vs => vs.foldl (fun acc x => if PyFloat.lt x acc then x else acc) v

/-- Source: `MaxAggregation.calculate` — `max(values)`, `0` on an empty list. -/
def MaxAggregation.calculate : List PyFloat → PyFloat
  | [] => .finite ⟨0, 1⟩
  | v :: vs => vs.foldl (fun acc x => if PyFloat.gt x acc then x else acc) v

/-- Source: `CSVProcessor.__init__` — the `aggregation_functions` dispatch table. -/
def aggregation_functions : List (Str × (List PyFloat → PyFloat)) :=
  [(str "avg", AverageAggregation.calculate),
   (str "min", MinAggregation.calculate),
   (str "max", MaxAggregation.calculate)]

/-- Value-extraction loop of `aggregate_data`: `float(row[column])` per row.
A row without the column raises `KeyError` (uncaught by the source's
`except ValueError`); a cell that fails coercion aborts with
`NonNumericValue` naming that cell's raw text. -/
def extractValues (column : Str) : List Row → Except PyErr (List PyFloat)
  | [] => .ok []
  | row :: rest =>
    match assocFind column row with
    | none => .error (.keyError column)
    | some cell =>
      match pyFloat cell with
      | none => .error (.nonNumericValue column cell)
      | some v =>
        match extractValues column rest with
        | .error e => .error e
        | .ok vs => .ok (v :: vs)

/-- Source: `CSVProcessor.aggregate_data`.  (The Python parameter named
`function` is called `fn` here.)  Order of checks follows the source: unknown
function tag, then the empty-data short-circuit returning `0`, then the
column-presence check on `data[0]` only, then value extraction. -/
def aggregate_data (data : List Row) (column fn : Str) : Except PyErr PyFloat :=
  match assocFind fn aggregation_functions with
  | none => .error (.unsupportedFunction fn)
  | some aggFn =>
    match data with
    | [] => .ok (.finite ⟨0, 1⟩)
    | first :: _ =>
      match assocFind column first with
      | none => .error (.columnNotFound column)
      | some _ =>
        match extractValues column data with
        | .error e => .error e
        | .ok values => .ok (aggFn values)

/-- Source: the `operators` list of `parse_filter_condition`, in its fixed
priority order. -/
def opTokens : List Str :=
  [str ">=", str "<=", str ">", str "<", str "=", str "!="]

/-- Source: the `op_mapping` table of `parse_filter_condition`. -/
def opMapping : List (Str × Str) :=
  [(str "=", str "eq"), (str ">", str "gt"), (str "<", str "lt"),
   (str ">=", str "gte"), (str "<=", str "lte"), (str "!=", str "ne")]

/-- Loop of `parse_filter_condition` over the token list: at the first token
contained in `condition`, split at its first occurrence, trim both parts and
map the token through `op_mapping`.  (The `len(parts) == 2` and
`op in op_mapping` guards of the source are mirrored by the two fall-through
branches; both always succeed for a contained token.) -/
def pfcTry (condition : Str) : List Str → Except PyErr (Str × Str × Str)
  | [] => .error (.invalidFilterFormat condition)
  | op :: rest =>
    if isSubstr op condition then
      match splitOnce op condition with
      | some (l, r) =>
        match assocFind op opMapping with
        | some tag => .ok (pyStrip l, tag, pyStrip r)
        | none => pfcTry condition rest
      | none => pfcTry condition rest
    else pfcTry condition rest

/-- Source: `parse_filter_condition`. -/
def parse_filter_condition (condition : Str) : Except PyErr (Str × Str × Str) :=
  pfcTry condition opTokens

/-- Source: `parse_aggregation_condition` — error when `'='` is absent, else
split at the first `'='` and trim both parts.  (The source's dead
`len(parts) != 2` re-check is the unreachable `none` branch.) -/
def parse_aggregation_condition (condition : Str) : Except PyErr (Str × Str) :=
  if isSubstr [ '=' ] condition then
    match splitOnce [ '=' ] condition with
    | some (l, r) => .ok (pyStrip l, pyStrip r)
    | none => .error (.invalidAggFormat condition)
  else .error (.invalidAggFormat condition)

/-- One CSV row as produced by `csv.DictReader`: cell values are `some text`,
or `none` for Python's `None` (the reader's default `restval`) filled in for
missing trailing fields. -/
abbrev RowN := List (Str × Option Str)

/-- Row construction of `csv.DictReader.__next__` for one record:
`dict(zip(fieldnames, row))`, then every header beyond the record's length is
bound to `restval`, which defaults to `None`.  (Extra fields beyond the
headers go under the non-header key `restkey = None` and are not part of the
header-keyed mapping; faithful for pairwise-distinct field names, where
`dict` overwriting cannot occur.) -/
def dictReaderRow (fieldnames : List Str) (fields : List Str) : RowN :=
  (List.zipWith (fun h f => (h, some f)) fieldnames fields)
    ++ (fieldnames.drop fields.length).map (fun h => (h, (none : Option Str)))

/-- Source: `CSVProcessor.read_csv`, modelled from the already-lexed records
of the file (each record the list of its comma-separated fields): the first
record gives the headers, every later nonempty record one `DictReader` row.
File I/O and the `csv` module's field lexing sit below the modelled level. -/
def read_csv (records : List (List Str)) : List Str × List RowN :=
  match records with
  | [] => ([], [])
  | fieldnames :: rest =>
    (fieldnames, (rest.filter (fun r => !r.isEmpty)).map (dictReaderRow fieldnames))

/-- Specification-side dispatch: the predicate of a registered operator tag,
`false` for unregistered tags (used only to state filtering results). -/
def opApply (op cell target : Str) : Bool :=
  match assocFind op filter_operators with
  | some fn => fn cell target
  | none => false

/-- Specification-side: raw text of the first cell (in row order) of `column`
that fails float coercion, skipping rows without the column. -/
def firstNonNumeric (column : Str) : List Row → Option Str
  | [] => none
  | row :: rest =>
    match assocFind column row with
    | none => firstNonNumeric column rest
    | some cell =>
      if (pyFloat cell).isNone then some cell else firstNonNumeric column rest

/-- Decidable equality for `Except`, so concrete runs of the embedded
functions can be checked by `decide`. -/
instance {ε α : Type} [DecidableEq ε] [DecidableEq α] : DecidableEq (Except ε α) := fun x y =>
  match x, y with
  | .ok a, .ok b =>
    if h : a = b then isTrue (congrArg Except.ok h)
    else isFalse (fun hc => h (Except.ok.inj hc))
  | .error a, .error b =>
    if h : a = b then isTrue (congrArg Except.error h)
    else isFalse (fun hc => h (Except.error.inj hc))
  | .ok _, .error _ => isFalse (fun hc => Except.noConfusion hc)
  | .error _, .ok _ => isFalse (fun hc => Except.noConfusion hc)

/-! ### Support lemmas on the string machinery -/

theorem isSubstr_cons (needle : Str) (c : Char) (rest : Str)
    (h : isSubstr needle rest = true) : isSubstr needle (c :: rest) = true := by
  simp [isSubstr, h]

theorem splitOnce_isSome_of_isSubstr (needle s : Str) (h : isSubstr needle s = true) :
    ∃ l r, splitOnce needle s = some (l, r) := by
  induction s with
  | nil =>
    simp only [isSubstr] at h
    exact ⟨[], [], by simp [splitOnce, h]⟩
  | cons c rest ih =>
    cases hp : listPrefixOf needle (c :: rest) with
    | true => exact ⟨[], (c :: rest).drop needle.length, by simp [splitOnce, hp]⟩
    | false =>
      simp only [isSubstr, hp, Bool.false_or] at h
      obtain ⟨l, r, hlr⟩ := ih h
      exact ⟨c :: l, r, by simp [splitOnce, hp, hlr]⟩

theorem isSubstr_single_iff (c : Char) (s : Str) : isSubstr [c] s = true ↔ c ∈ s := by
  induction s with
  | nil => simp [isSubstr, listPrefixOf]
  | cons a rest ih =>
    simp [isSubstr, listPrefixOf, ih, List.mem_cons]

theorem splitOnce_single (c : Char) (s : Str) (h : c ∈ s) :
    splitOnce [c] s =
      some (s.takeWhile (fun a => a != c), (s.dropWhile (fun a => a != c)).drop 1) := by
  induction s with
  | nil => cases h
  | cons a rest ih =>
    by_cases hac : c = a
    · subst hac
      simp [splitOnce, listPrefixOf, List.takeWhile_cons, List.dropWhile_cons]
    · have hmem : c ∈ rest := by
        rcases List.mem_cons.mp h with h' | h'
        · exact absurd h' hac
        · exact h'
      have hbeq : (c == a) = false := beq_eq_false_iff_ne.mpr hac
      have hbeq' : (a != c) = true := by
        simp [bne, beq_eq_false_iff_ne.mpr (Ne.symm hac)]
      simp [splitOnce, listPrefixOf, hbeq, ih hmem, List.takeWhile_cons, List.dropWhile_cons, hbeq']

theorem eq_mem_of_ne_substr (s : Str) (h : isSubstr (str "!=") s = true) : '=' ∈ s := by
  induction s with
  | nil => simp [isSubstr, str, listPrefixOf] at h
  | cons a rest ih =>
    cases hp : listPrefixOf (str "!=") (a :: rest) with
    | true =>
      cases rest with
      | nil => simp [str, listPrefixOf] at hp
      | cons b rest' =>
        have hp' : (('!' == a) && (('=' == b) && true)) = true := hp
        simp only [Bool.and_true, Bool.and_eq_true, beq_iff_eq] at hp'
        obtain ⟨-, h2⟩ := hp'
        subst h2
        simp
    | false =>
      simp only [isSubstr, hp, Bool.false_or] at h
      exact List.mem_cons_of_mem _ (ih h)

theorem pfcTry_head_found (condition o : Str) (os : List Str) (tag : Str)
    (ho : isSubstr o condition = true) (htag : assocFind o opMapping = some tag) :
    ∃ l r, splitOnce o condition = some (l, r) ∧
      pfcTry condition (o :: os) = .ok (pyStrip l, tag, pyStrip r) := by
  obtain ⟨l, r, hlr⟩ := splitOnce_isSome_of_isSubstr o condition ho
  exact ⟨l, r, hlr, by simp [pfcTry, ho, hlr, htag]⟩

theorem pfcTry_head_miss (condition o : Str) (os : List Str)
    (ho : isSubstr o condition = false) :
    pfcTry condition (o :: os) = pfcTry condition os := by
  simp [pfcTry, ho]

theorem pfcTry_ok_of_mem (condition : Str) (ops : List Str)
    (hmap : ∀ op ∈ ops, (assocFind op opMapping).isSome = true)
    (hex : ∃ op ∈ ops, isSubstr op condition = true) :
    ∃ c t v, pfcTry condition ops = .ok (c, t, v) := by
  induction ops with
  | nil => simp at hex
  | cons o os ih =>
    cases ho : isSubstr o condition with
    | true =>
      obtain ⟨tag, htag⟩ := Option.isSome_iff_exists.mp (hmap o (by simp))
      obtain ⟨l, r, _, hres⟩ := pfcTry_head_found condition o os tag ho htag
      exact ⟨pyStrip l, tag, pyStrip r, hres⟩
    | false =>
      rw [pfcTry_head_miss condition o os ho]
      apply ih (fun op hop => hmap op (by simp [hop]))
      obtain ⟨op, hop, hsub⟩ := hex
      rcases List.mem_cons.mp hop with rfl | hop'
      · rw [ho] at hsub; cases hsub
      · exact ⟨op, hop', hsub⟩

/-! ### Claims C1 and C2 -/

/-- C1, counterexample: the natural candidate condition `"a!=b"` containing the
`!=` token is parsed with the `=` token (tagged `eq`, the `!` left in the
column), not with `!=`. -/
theorem C1_counterexample :
    isSubstr (str "!=") (str "a!=b") = true ∧
      parse_filter_condition (str "a!=b") = .ok (str "a!", str "eq", str "b") := by
  decide

/-- C1, amended: the `!=` → `ne` row of `op_mapping` is unreachable.  Any
condition string containing `!=` also contains `=`, so the scan stops at one
of the five earlier tokens and the returned operator tag is never `ne`. -/
theorem C1_amended (s c t v : Str) (hsub : isSubstr (str "!=") s = true)
    (h : parse_filter_condition s = .ok (c, t, v)) : t ≠ str "ne" := by
  have heq : isSubstr (str "=") s = true := (isSubstr_single_iff '=' s).mpr (eq_mem_of_ne_substr s hsub)
  rw [parse_filter_condition,
    show opTokens = str ">=" :: str "<=" :: str ">" :: str "<" :: str "=" :: [str "!="] from rfl] at h
  cases h1 : isSubstr (str ">=") s with
  | true =>
    obtain ⟨l, r, _, hres⟩ := pfcTry_head_found s (str ">=") _ (str "gte") h1 (by decide)
    rw [hres] at h
    cases h
    decide
  | false =>
    rw [pfcTry_head_miss _ _ _ h1] at h
    cases h2 : isSubstr (str "<=") s with
    | true =>
      obtain ⟨l, r, _, hres⟩ := pfcTry_head_found s (str "<=") _ (str "lte") h2 (by decide)
      rw [hres] at h
      cases h
      decide
    | false =>
      rw [pfcTry_head_miss _ _ _ h2] at h
      cases h3 : isSubstr (str ">") s with
      | true =>
        obtain ⟨l, r, _, hres⟩ := pfcTry_head_found s (str ">") _ (str "gt") h3 (by decide)
        rw [hres] at h
        cases h
        decide
      | false =>
        rw [pfcTry_head_miss _ _ _ h3] at h
        cases h4 : isSubstr (str "<") s with
        | true =>
          obtain ⟨l, r, _, hres⟩ := pfcTry_head_found s (str "<") _ (str "lt") h4 (by decide)
          rw [hres] at h
          cases h
          decide
        | false =>
          rw [pfcTry_head_miss _ _ _ h4] at h
          obtain ⟨l, r, _, hres⟩ := pfcTry_head_found s (str "=") _ (str "eq") heq (by decide)
          rw [hres] at h
          cases h
          decide

/-- C1, witness for the amended theorem at the concrete condition `"a!=b"`. -/
theorem C1_witness : (str "eq" : Str) ≠ str "ne" :=
  C1_amended (str "a!=b") (str "a!") (str "eq") (str "b") (by decide) (by decide)

/-- C2, counterexample: in `"=5"` the first matched token `=` has an
empty-after-trim left part, yet `parse_filter_condition` returns a triple with
an empty column instead of failing with `InvalidFormat`. -/
theorem C2_counterexample :
    parse_filter_condition (str "=5") = .ok ([], str "eq", str "5") := by
  decide

/-- C2, amended: there is no non-emptiness check at all.  Whenever any
operator token occurs in the condition string, `parse_filter_condition`
returns a triple (with both parts trimmed, possibly empty); it never fails on
such a string. -/
theorem C2_amended (s : Str) (hex : ∃ op ∈ opTokens, isSubstr op s = true) :
    ∃ c t v, parse_filter_condition s = .ok (c, t, v) :=
  pfcTry_ok_of_mem s opTokens (by decide) hex

/-- C2, witness for the amended theorem at the concrete condition `"=5"`. -/
theorem C2_witness : (parse_filter_condition (str "=5")).isOk = true := by
  obtain ⟨c, t, v, h⟩ := C2_amended (str "=5") ⟨str "=", by decide, by decide⟩
  rw [h]
  rfl

/-! ### Claims C3, C4 and C5 -/

theorem assocFind_map_none (fieldnames : List Str) (h : Str) (hmem : h ∈ fieldnames) :
    assocFind h (fieldnames.map (fun k => (k, (none : Option Str)))) = some none := by
  induction fieldnames with
  | nil => cases hmem
  | cons a rest ih =>
    by_cases hh : h = a
    · subst hh
      simp [assocFind]
    · have hmem' : h ∈ rest := by
        rcases List.mem_cons.mp hmem with h' | h'
        · exact absurd h' hh
        · exact h'
      simp [assocFind, hh, ih hmem']

/-- C3, counterexample: reading a file whose single data line `"1"` has fewer
fields than the two headers binds the missing trailing field to Python's
`None` (the `DictReader` default `restval`), not to the empty string. -/
theorem C3_counterexample :
    (read_csv [[str "a", str "b"], [str "1"]]).2 =
        [[(str "a", some (str "1")), (str "b", (none : Option Str))]] ∧
      (read_csv [[str "a", str "b"], [str "1"]]).2 ≠
        [[(str "a", some (str "1")), (str "b", some (str ""))]] := by
  decide

/-- C3, amended: for a record with at most as many fields as there are
headers, the constructed row mapping still has an entry for every declared
header, but a header beyond the record's fields is bound to `None`
(`DictReader`'s default `restval`), not to the empty string. -/
theorem C3_amended (fieldnames fields : List Str) (hlen : fields.length ≤ fieldnames.length)
    (h : Str) (hmem : h ∈ fieldnames) :
    (∃ v, assocFind h (dictReaderRow fieldnames fields) = some v) ∧
      (h ∉ fieldnames.take fields.length →
        assocFind h (dictReaderRow fieldnames fields) = some none) := by
  induction fields generalizing fieldnames with
  | nil =>
    have hrow : dictReaderRow fieldnames [] =
        fieldnames.map (fun k => (k, (none : Option Str))) := by
      simp [dictReaderRow]
    rw [hrow]
    exact ⟨⟨none, assocFind_map_none fieldnames h hmem⟩,
      fun _ => assocFind_map_none fieldnames h hmem⟩
  | cons f fl ih =>
    cases fieldnames with
    | nil => cases hmem
    | cons h0 fn' =>
      have hrow : dictReaderRow (h0 :: fn') (f :: fl) =
          (h0, some f) :: dictReaderRow fn' fl := by
        simp [dictReaderRow]
      rw [hrow]
      by_cases hh : h = h0
      · subst hh
        refine ⟨⟨some f, by simp [assocFind]⟩, fun htake => ?_⟩
        exact absurd (by simp [List.take_succ_cons]) htake
      · have hmem' : h ∈ fn' := by
          rcases List.mem_cons.mp hmem with h' | h'
          · exact absurd h' hh
          · exact h'
        have hlen' : fl.length ≤ fn'.length := by
          simpa using hlen
        obtain ⟨hex, hmiss⟩ := ih fn' hlen' hmem'
        refine ⟨?_, fun htake => ?_⟩
        · obtain ⟨v, hv⟩ := hex
          exact ⟨v, by simp [assocFind, hh, hv]⟩
        · have htake' : h ∉ fn'.take fl.length := by
            simp [List.take_succ_cons] at htake
            exact htake.2
          simp [assocFind, hh, hmiss htake']

/-- C3, witness for the amended theorem: with headers `["a","b"]` and the
single-field record `["1"]`, the header `"b"` is bound to `None`. -/
theorem C3_witness :
    assocFind (str "b") (dictReaderRow [str "a", str "b"] [str "1"]) = some none :=
  (C3_amended [str "a", str "b"] [str "1"] (by decide) (str "b") (by decide)).2 (by decide)

/-- C4, confirmed: for every registered aggregation function tag and every
column name (looked-up or not, existing or not), aggregating an empty row
sequence returns `0` — the short-circuit fires before any column lookup or
cell coercion. -/
theorem C4 (fn col : Str) (hfn : fn ∈ [str "avg", str "min", str "max"]) :
    aggregate_data [] col fn = .ok (.finite ⟨0, 1⟩) := by
  rcases List.mem_cons.mp hfn with rfl | hfn'
  · rfl
  rcases List.mem_cons.mp hfn' with rfl | hfn''
  · rfl
  rcases List.mem_cons.mp hfn'' with rfl | h
  · rfl
  · cases h

/-- C4, witness at the concrete tag `"avg"` and column `"price"`. -/
theorem C4_witness : aggregate_data [] (str "price") (str "avg") = .ok (.finite ⟨0, 1⟩) :=
  C4 (str "avg") (str "price") (by decide)

theorem extractValues_error (col cell : Str) (data : List Row)
    (hall : ∀ row ∈ data, (assocFind col row).isSome = true)
    (hfail : firstNonNumeric col data = some cell) :
    extractValues col data = .error (.nonNumericValue col cell) := by
  induction data with
  | nil => simp [firstNonNumeric] at hfail
  | cons row rest ih =>
    obtain ⟨c0, hc0⟩ := Option.isSome_iff_exists.mp (hall row (by simp))
    cases hv : pyFloat c0 with
    | none =>
      simp [firstNonNumeric, hc0, hv] at hfail
      subst hfail
      simp [extractValues, hc0, hv]
    | some q =>
      simp [firstNonNumeric, hc0, hv] at hfail
      have hrest := ih (fun r hr => hall r (by simp [hr])) hfail
      simp [extractValues, hc0, hv, hrest]

/-- C5, counterexample: the stated hypothesis (only the *first* row must
contain the column) is too weak.  Here the first row contains `"c"` and the
third row's cell `"x"` fails coercion, but the second row lacks `"c"`, so the
run aborts with an uncaught `KeyError` instead of `NonNumericValue "x"`. -/
theorem C5_counterexample :
    aggregate_data [[(str "c", str "1")], [(str "d", str "2")], [(str "c", str "x")]]
        (str "c") (str "avg") = .error (.keyError (str "c")) ∧
      aggregate_data [[(str "c", str "1")], [(str "d", str "2")], [(str "c", str "x")]]
        (str "c") (str "avg") ≠ .error (.nonNumericValue (str "c") (str "x")) := by
  decide

/-- C5, amended: with the strengthened hypothesis that *every* row contains
the requested column, a row sequence containing any cell that fails float
coercion makes `aggregate_data` fail with `NonNumericValue` naming the raw
text of the first such cell in row order; no partial result is returned. -/
theorem C5_amended (data : List Row) (col fn cell : Str)
    (hfn : fn ∈ [str "avg", str "min", str "max"])
    (hne : data ≠ [])
    (hall : ∀ row ∈ data, (assocFind col row).isSome = true)
    (hfail : firstNonNumeric col data = some cell) :
    aggregate_data data col fn = .error (.nonNumericValue col cell) := by
  obtain ⟨aggFn, hagg⟩ : ∃ g, assocFind fn aggregation_functions = some g := by
    rcases List.mem_cons.mp hfn with rfl | hfn'
    · exact ⟨_, rfl⟩
    rcases List.mem_cons.mp hfn' with rfl | hfn''
    · exact ⟨_, rfl⟩
    rcases List.mem_cons.mp hfn'' with rfl | h
    · exact ⟨_, rfl⟩
    · cases h
  cases data with
  | nil => exact absurd rfl hne
  | cons first rest =>
    obtain ⟨c0, hc0⟩ := Option.isSome_iff_exists.mp (hall first (by simp))
    have hext := extractValues_error col cell (first :: rest) hall hfail
    simp [aggregate_data, hagg, hc0, hext]

/-- C5, witness for the amended theorem: all rows contain `"c"`, the second
cell `"abc"` is the first coercion failure and is named in the error. -/
theorem C5_witness :
    aggregate_data [[(str "c", str "1")], [(str "c", str "abc")]] (str "c") (str "avg")
      = .error (.nonNumericValue (str "c") (str "abc")) :=
  C5_amended [[(str "c", str "1")], [(str "c", str "abc")]] (str "c") (str "avg")
    (str "abc") (by decide) (by decide) (by decide) (by decide)

/-! ### Claims C6, C7 and C8 -/

/-- C6, confirmed: for every operator tag outside `{eq, gt, lt}` — in
particular the tags `gte` and `lte` the parser produces — `filter_data` fails
with `UnsupportedOperator` for every data list, column and target value; the
dispatch check precedes any row access. -/
theorem C6 (op : Str) (hop : op ∉ [str "eq", str "gt", str "lt"])
    (data : List Row) (col v : Str) :
    filter_data data col op v = .error (.unsupportedOperator op) := by
  simp only [List.mem_cons, List.not_mem_nil, or_false, not_or] at hop
  obtain ⟨h1, h2, h3⟩ := hop
  simp [filter_data, filter_operators, assocFind, h1, h2, h3]

/-- C6, witness: `"price>=500"` parses to the tag `gte`, and filtering with
`gte` fails with `UnsupportedOperator` on a concrete one-row table. -/
theorem C6_witness :
    parse_filter_condition (str "price>=500") = .ok (str "price", str "gte", str "500") ∧
      filter_data [[(str "price", str "999")]] (str "price") (str "gte") (str "500")
        = .error (.unsupportedOperator (str "gte")) :=
  ⟨by decide, C6 (str "gte") (by decide) [[(str "price", str "999")]] (str "price") (str "500")⟩

/-- C7, confirmed: `GreaterThanOperator.apply` (and `LessThanOperator.apply`)
compares the two float parses numerically when both operands parse, and falls
back to lexicographic comparison of the raw untrimmed operands when either
fails to parse; in particular `GreaterThan("banana", "apple")` is true. -/
theorem C7 (v t : Str) :
    (∀ a b, pyFloat v = some a → pyFloat t = some b →
      GreaterThanOperator.apply v t = PyFloat.gt a b ∧
        LessThanOperator.apply v t = PyFloat.lt a b) ∧
    ((pyFloat v = none ∨ pyFloat t = none) →
      GreaterThanOperator.apply v t = strGt v t ∧
        LessThanOperator.apply v t = strLt v t) ∧
    GreaterThanOperator.apply (str "banana") (str "apple") = true := by
  refine ⟨?_, ?_, by decide⟩
  · intro a b ha hb
    constructor <;> simp [GreaterThanOperator.apply, LessThanOperator.apply, ha, hb]
  · intro h
    rcases h with h | h
    · constructor <;> simp [GreaterThanOperator.apply, LessThanOperator.apply, h]
    · cases hv : pyFloat v <;>
        constructor <;>
          simp [GreaterThanOperator.apply, LessThanOperator.apply, hv, h]

/-- C7, witness: the numeric branch at `("10", "5")` and the lexicographic
fallback at `("banana", "apple")`, each hypothesis discharged concretely. -/
theorem C7_witness :
    GreaterThanOperator.apply (str "10") (str "5")
        = PyFloat.gt (.finite ⟨10, 1⟩) (.finite ⟨5, 1⟩) ∧
      GreaterThanOperator.apply (str "banana") (str "apple")
        = strGt (str "banana") (str "apple") ∧
      GreaterThanOperator.apply (str "banana") (str "apple") = true :=
  ⟨((C7 (str "10") (str "5")).1 (.finite ⟨10, 1⟩) (.finite ⟨5, 1⟩) (by decide) (by decide)).1,
   ((C7 (str "banana") (str "apple")).2.1 (Or.inl (by decide))).1,
   (C7 (str "banana") (str "apple")).2.2⟩

theorem filterLoop_filter (fnc : Str → Str → Bool) (col v : Str) (data : List Row)
    (hall : ∀ row ∈ data, (assocFind col row).isSome = true) :
    filterLoop fnc col v data =
      .ok (data.filter (fun row => fnc ((assocFind col row).getD []) v)) := by
  induction data with
  | nil => rfl
  | cons row rest ih =>
    obtain ⟨cell, hcell⟩ := Option.isSome_iff_exists.mp (hall row (by simp))
    have hrest := ih (fun r hr => hall r (by simp [hr]))
    simp [filterLoop, hcell, hrest, List.filter_cons]

/-- C8, confirmed: when every row contains the column and the operator tag is
registered, `filter_data` returns exactly the subsequence of input rows whose
cell satisfies the operator's predicate against the target literal —
`List.filter`, so survivors keep input order and rows are never reordered,
duplicated or modified. -/
theorem C8 (data : List Row) (col op v : Str)
    (hop : op ∈ [str "eq", str "gt", str "lt"])
    (hall : ∀ row ∈ data, (assocFind col row).isSome = true) :
    filter_data data col op v =
      .ok (data.filter (fun row => opApply op ((assocFind col row).getD []) v)) := by
  rcases List.mem_cons.mp hop with rfl | hop'
  · exact filterLoop_filter EqualsOperator.apply col v data hall
  rcases List.mem_cons.mp hop' with rfl | hop''
  · exact filterLoop_filter GreaterThanOperator.apply col v data hall
  rcases List.mem_cons.mp hop'' with rfl | h
  · exact filterLoop_filter LessThanOperator.apply col v data hall
  · cases h

/-- C8, witness on a concrete three-row table filtered by `brand eq xiaomi`. -/
theorem C8_witness :
    filter_data [[(str "brand", str "apple")], [(str "brand", str "xiaomi")],
        [(str "brand", str "xiaomi")]] (str "brand") (str "eq") (str "xiaomi") =
      .ok ([[(str "brand", str "apple")], [(str "brand", str "xiaomi")],
          [(str "brand", str "xiaomi")]].filter
        (fun row => opApply (str "eq") ((assocFind (str "brand") row).getD []) (str "xiaomi"))) :=
  C8 [[(str "brand", str "apple")], [(str "brand", str "xiaomi")], [(str "brand", str "xiaomi")]]
    (str "brand") (str "eq") (str "xiaomi") (by decide) (by decide)

/-! ### Claims C9 and C10 -/

/-- C9, confirmed: whenever the condition string contains at least one `=`,
`parse_aggregation_condition` succeeds with the trimmed text before the first
`=` and the trimmed text after it (any later `=` characters stay inside the
column half); it fails with `InvalidFormat` exactly when `=` is absent. -/
theorem C9 (s : Str) :
    (isSubstr (str "=") s = true →
      parse_aggregation_condition s =
        .ok (pyStrip (s.takeWhile (fun a => a != '=')),
             pyStrip ((s.dropWhile (fun a => a != '=')).drop 1))) ∧
    (isSubstr (str "=") s = false →
      parse_aggregation_condition s = .error (.invalidAggFormat s)) := by
  constructor
  · intro h
    have hmem : '=' ∈ s := (isSubstr_single_iff '=' s).mp h
    have hs := splitOnce_single '=' s hmem
    simp only [parse_aggregation_condition]
    rw [show (str "=") = [ '=' ] from rfl] at h
    simp [h, hs]
  · intro h
    simp only [parse_aggregation_condition]
    rw [show (str "=") = [ '=' ] from rfl] at h
    simp [h]

/-- C9, witness: a second `=` is silently kept inside the column half. -/
theorem C9_witness :
    parse_aggregation_condition (str "avg=price=test") = .ok (str "avg", str "price=test") := by
  have h := (C9 (str "avg=price=test")).1 (by decide)
  rw [h]
  decide

/-- C10, confirmed: operand-swapped duality of the two comparison operators,
`GreaterThan(v, t) = LessThan(t, v)`, in the numeric branch (including
`inf`/`nan` behaviour) and in the lexicographic fallback alike. -/
theorem C10 (v t : Str) : GreaterThanOperator.apply v t = LessThanOperator.apply t v := by
  have hnum : ∀ a b, PyFloat.gt a b = PyFloat.lt b a := by
    intro a b
    cases a <;> cases b <;> rfl
  have hstr : ∀ x y : Str, strGt x y = strLt y x := by
    intro x y
    induction x generalizing y with
    | nil => cases y <;> rfl
    | cons a as ih =>
      cases y with
      | nil => rfl
      | cons b bs => simp [strGt, strLt, ih]
  cases hv : pyFloat v <;> cases ht : pyFloat t <;>
    simp [GreaterThanOperator.apply, LessThanOperator.apply, hv, ht, hnum, hstr]
